import Mathlib

/-!
Verification of the table-driven UTF-8 decoder in `src/utf8.h`
(namespace `bkh::encoding`, class `utf8`).

The decoder is a DFA working one byte at a time.  We embed it shallowly:

* the three lookup tables (`initial_state`, `octet_category`,
  `state_transition`) are transcribed literally from the aggregate
  initializers in the source;
* the inner continuation loop of `utf8::decode` (the `while (state > ERR)`
  loop) becomes `contLoop`, which returns the final DFA state, the
  accumulated code point and the number of octets it consumed;
* the outer loop of `utf8::decode` becomes `decode`, which returns the list
  of code points written to the output iterator (in order) together with
  the distance the input iterator travelled, i.e. the position at which
  decoding stopped (`decode` returning `(out, p)` corresponds to the C++
  function writing `out` through `output` and returning `begin + p`).

Octets are modelled as `Nat`; `detail::read`'s
`static_cast<std::uint8_t>` is the `% 256` applied to every byte read.
`char32_t` arithmetic on the accumulated code point is performed modulo
`2 ^ 32` exactly where the C++ expression can wrap.
-/

set_option maxRecDepth 20000

namespace Utf8

/-- `character_class_t` values from the source. -/
def ILL : Nat := 0
def ASC : Nat := 1
def CR1 : Nat := 2
def CR2 : Nat := 3
def CR3 : Nat := 4
def L2A : Nat := 5
def L3A : Nat := 6
def L3B : Nat := 7
def L3C : Nat := 8
def L4A : Nat := 9
def L4B : Nat := 10
def L4C : Nat := 11

/-- `dfa_state_t` values from the source. -/
def BGN : Nat := 0
def ERR : Nat := 12
def CS1 : Nat := 24
def CS2 : Nat := 36
def CS3 : Nat := 48
def P3A : Nat := 60
def P3B : Nat := 72
def P4A : Nat := 84
def P4B : Nat := 96
def END : Nat := BGN

/-- The `initial_state[62]` table: maps `octet - 0xC2` to the initial
partial code point and the initial DFA state. Transcribed from the source. -/
def initial_state_table : List (Nat × Nat) :=
 [
  (0x02, CS1), (0x03, CS1), (0x04, CS1), (0x05, CS1),
  (0x06, CS1), (0x07, CS1), (0x08, CS1), (0x09, CS1),
  (0x0A, CS1), (0x0B, CS1), (0x0C, CS1), (0x0D, CS1),
  (0x0E, CS1), (0x0F, CS1), (0x10, CS1), (0x11, CS1),
  (0x12, CS1), (0x13, CS1), (0x14, CS1), (0x15, CS1),
  (0x16, CS1), (0x17, CS1), (0x18, CS1), (0x19, CS1),
  (0x1A, CS1), (0x1B, CS1), (0x1C, CS1), (0x1D, CS1),
  (0x1E, CS1), (0x1F, CS1), (0x00, P3A), (0x01, CS2),
  (0x02, CS2), (0x03, CS2), (0x04, CS2), (0x05, CS2),
  (0x06, CS2), (0x07, CS2), (0x08, CS2), (0x09, CS2),
  (0x0A, CS2), (0x0B, CS2), (0x0C, CS2), (0x0D, P3B),
  (0x0E, CS2), (0x0F, CS2), (0x00, P4A), (0x01, CS3),
  (0x02, CS3), (0x03, CS3), (0x04, P4B), (0xF5, ERR),
  (0xF6, ERR), (0xF7, ERR), (0xF8, ERR), (0xF9, ERR),
  (0xFA, ERR), (0xFB, ERR), (0xFC, ERR), (0xFD, ERR),
  (0xFE, ERR), (0xFF, ERR)
 ]

/-- The `octet_category[256]` table: maps a byte to its character class.
Transcribed from the source. -/
def octet_category_table : List Nat :=
 [
  ASC, ASC, ASC, ASC, ASC, ASC, ASC, ASC, ASC, ASC, ASC, ASC, ASC, ASC, ASC, ASC,
  ASC, ASC, ASC, ASC, ASC, ASC, ASC, ASC, ASC, ASC, ASC, ASC, ASC, ASC, ASC, ASC,
  ASC, ASC, ASC, ASC, ASC, ASC, ASC, ASC, ASC, ASC, ASC, ASC, ASC, ASC, ASC, ASC,
  ASC, ASC, ASC, ASC, ASC, ASC, ASC, ASC, ASC, ASC, ASC, ASC, ASC, ASC, ASC, ASC,
  ASC, ASC, ASC, ASC, ASC, ASC, ASC, ASC, ASC, ASC, ASC, ASC, ASC, ASC, ASC, ASC,
  ASC, ASC, ASC, ASC, ASC, ASC, ASC, ASC, ASC, ASC, ASC, ASC, ASC, ASC, ASC, ASC,
  ASC, ASC, ASC, ASC, ASC, ASC, ASC, ASC, ASC, ASC, ASC, ASC, ASC, ASC, ASC, ASC,
  ASC, ASC, ASC, ASC, ASC, ASC, ASC, ASC, ASC, ASC, ASC, ASC, ASC, ASC, ASC, ASC,
  CR1, CR1, CR1, CR1, CR1, CR1, CR1, CR1, CR1, CR1, CR1, CR1, CR1, CR1, CR1, CR1,
  CR2, CR2, CR2, CR2, CR2, CR2, CR2, CR2, CR2, CR2, CR2, CR2, CR2, CR2, CR2, CR2,
  CR3, CR3, CR3, CR3, CR3, CR3, CR3, CR3, CR3, CR3, CR3, CR3, CR3, CR3, CR3, CR3,
  CR3, CR3, CR3, CR3, CR3, CR3, CR3, CR3, CR3, CR3, CR3, CR3, CR3, CR3, CR3, CR3,
  ILL, ILL, L2A, L2A, L2A, L2A, L2A, L2A, L2A, L2A, L2A, L2A, L2A, L2A, L2A, L2A,
  L2A, L2A, L2A, L2A, L2A, L2A, L2A, L2A, L2A, L2A, L2A, L2A, L2A, L2A, L2A, L2A,
  L3A, L3B, L3B, L3B, L3B, L3B, L3B, L3B, L3B, L3B, L3B, L3B, L3B, L3C, L3B, L3B,
  L4A, L4B, L4B, L4B, L4C, ILL, ILL, ILL, ILL, ILL, ILL, ILL, ILL, ILL, ILL, ILL
 ]

/-- The `state_transition[108]` table: maps `state + category` to the next
DFA state. Transcribed from the source (9 rows of 12). -/
def state_transition_table : List Nat :=
 [
  ERR, END, ERR, ERR, ERR, CS1, P3A, CS2, P3B, P4A, CS3, P4B,
  ERR, ERR, ERR, ERR, ERR, ERR, ERR, ERR, ERR, ERR, ERR, ERR,
  ERR, ERR, END, END, END, ERR, ERR, ERR, ERR, ERR, ERR, ERR,
  ERR, ERR, CS1, CS1, CS1, ERR, ERR, ERR, ERR, ERR, ERR, ERR,
  ERR, ERR, CS2, CS2, CS2, ERR, ERR, ERR, ERR, ERR, ERR, ERR,
  ERR, ERR, ERR, ERR, CS1, ERR, ERR, ERR, ERR, ERR, ERR, ERR,
  ERR, ERR, CS1, CS1, ERR, ERR, ERR, ERR, ERR, ERR, ERR, ERR,
  ERR, ERR, ERR, CS2, CS2, ERR, ERR, ERR, ERR, ERR, ERR, ERR,
  ERR, ERR, CS2, ERR, ERR, ERR, ERR, ERR, ERR, ERR, ERR, ERR
 ]

/-- `lookup.initial_state[i]` (the default is never reached: the decoder
only indexes this table with `octet - 0xC2` for `0xC2 ≤ octet ≤ 0xFF`). -/
def initial_state (i : Nat) : Nat × Nat := initial_state_table.getD i (0, ERR)

/-- `lookup.octet_category[b]`. -/
def octet_category (b : Nat) : Nat := octet_category_table.getD b ILL

/-- `lookup.state_transition[i]`. -/
def state_transition (i : Nat) : Nat := state_transition_table.getD i ERR

/-- One `code_point = (code_point << 6) | (octet & 0x3F)` update on a
`char32_t` accumulator (the shift wraps modulo `2 ^ 32`). -/
def cpStep (cp b : Nat) : Nat := ((cp <<< 6) % 4294967296) ||| (b &&& 63)

/-- The inner `while (state > ERR)` loop of `utf8::decode`.
`contLoop state cp input = (state_final, cp_final, consumed)`:
starting in DFA state `state` with accumulated code point `cp` and the
input iterator having `input` left before `end`, it returns the state in
which the loop exits, the accumulated code point at that moment, and how
many octets were read.  When the input runs out while a sequence is still
pending, the source forces `state = ERR` without reading. -/
def contLoop : Nat → Nat → List Nat → Nat × Nat × Nat
  | state, cp, [] => if 12 < state then (12, cp, 0) else (state, cp, 0)
  | state, cp, b :: rest =>
    if 12 < state then
      let octet := b % 256
      let cp2 := cpStep cp octet
      let category := octet_category octet
      let r := contLoop (state_transition (state + category)) cp2 rest
      (r.1, r.2.1, r.2.2 + 1)
    else (state, cp, 0)

/-- The body of the outer loop of `utf8::decode`, made structurally
recursive on a fuel argument so that the kernel can evaluate it.  Every
iteration of the outer loop consumes at least one octet, so fuel equal to
the input length is always enough; `decodeAux_fuel` below shows the fuel is
invisible.  The C++ control flow is mirrored branch for branch. -/
def decodeAux : Nat → List Nat → List Nat × Nat
  | _, [] => ([], 0)
  | 0, _ :: _ => ([], 0)
  | fuel + 1, b :: rest =>
    let octet := b % 256
    if octet < 128 then
      let r := decodeAux fuel rest
      (octet :: r.1, r.2 + 1)
    else if octet < 194 then
      ([], 1)
    else
      let p := initial_state (octet - 194)
      let r := contLoop p.2 p.1 rest
      if r.1 = 12 then
        ([], 1 + r.2.2)
      else
        let k := decodeAux fuel (rest.drop r.2.2)
        (r.2.1 :: k.1, 1 + r.2.2 + k.2)

/-- The outer loop of `utf8::decode`.  `decode input = (out, p)` means: the
code points `out` are written to the output iterator in this order, and the
returned input iterator is `begin + p` (so `p = input.length` is the
full-success return `end`, and an early return hands back the iterator
exactly where it stood after the last `detail::read`). -/
def decode (input : List Nat) : List Nat × Nat := decodeAux input.length input

/-- Modelled from the spec: a correct reference UTF-8 encoder.  The
repository contains no encoder (spec §1: "Out of scope: encoding code
points back to UTF-8 (not present in source)"), so claim C1's round trip
is stated against the standard UTF-8 encoding: one octet below `0x80`,
two below `0x800`, three below `0x10000`, four up to `0x10FFFF`, each
continuation octet carrying six payload bits. -/
def utf8EncodeRef (v : Nat) : List Nat :=
  if v < 128 then [v]
  else if v < 2048 then [192 + v / 64, 128 + v % 64]
  else if v < 65536 then [224 + v / 4096, 128 + v / 64 % 64, 128 + v % 64]
  else [240 + v / 262144, 128 + v / 4096 % 64, 128 + v / 64 % 64, 128 + v % 64]

/-- The minimum code point of a canonical UTF-8 sequence of `L` octets
(`L` from 2 to 4). -/
abbrev seqMin (L : Nat) : Nat :=
  if L = 2 then 128 else if L = 3 then 2048 else if L = 4 then 65536 else 0

/-- The maximum code point of a canonical UTF-8 sequence of `L` octets. -/
abbrev seqMax (L : Nat) : Nat :=
  if L = 2 then 2047 else if L = 3 then 65535 else if L = 4 then 1114111 else 0

/-- `c` is exactly the payload of a canonical (shortest-form) `L`-octet
UTF-8 sequence and is not a surrogate. -/
abbrev canonical (L c : Nat) : Prop :=
  seqMin L ≤ c ∧ c ≤ seqMax L ∧ ¬ (55296 ≤ c ∧ c ≤ 57343)

/-- Invariant of the inner decode loop: in pending state `state`, after
`u` octets of the current sequence have been read (leader included), the
accumulated code point `cp` lies in the exact range reachable through the
tables.  The ranges are chosen so that completing the sequence lands in
`canonical`. -/
abbrev Inv (state cp u : Nat) : Prop :=
  (state = 24 ∧ ((u = 1 ∧ 2 ≤ cp ∧ cp ≤ 31) ∨
                 (u = 2 ∧ 32 ≤ cp ∧ cp ≤ 1023 ∧ ¬ (864 ≤ cp ∧ cp ≤ 895)) ∨
                 (u = 3 ∧ 1024 ≤ cp ∧ cp ≤ 17407))) ∨
  (state = 36 ∧ ((u = 1 ∧ 1 ≤ cp ∧ cp ≤ 15 ∧ cp ≠ 13) ∨
                 (u = 2 ∧ 16 ≤ cp ∧ cp ≤ 271))) ∨
  (state = 48 ∧ u = 1 ∧ 1 ≤ cp ∧ cp ≤ 3) ∨
  (state = 60 ∧ u = 1 ∧ cp = 0) ∨
  (state = 72 ∧ u = 1 ∧ cp = 13) ∨
  (state = 84 ∧ u = 1 ∧ cp = 0) ∨
  (state = 96 ∧ u = 1 ∧ cp = 4)

instance (state cp u : Nat) : Decidable (Inv state cp u) := by
  unfold Inv
  infer_instance

/-- The seven pending DFA states of the inner loop (those above `ERR`). -/
def stateOK (s : Nat) : Bool :=
  s == 24 || s == 36 || s == 48 || s == 60 || s == 72 || s == 84 || s == 96

/-- The inner loop of `utf8::decode` with every lookup-table access
guarded: before an `octet_category` access the index must be below 256,
before a `state_transition` access the current state must be one of the
seven pending states and the flattened index `state + category` must be
below 108.  Any out-of-bounds access yields `none`. -/
def contLoopChecked : Nat → Nat → List Nat → Option (Nat × Nat × Nat)
  | state, cp, [] => if 12 < state then some (12, cp, 0) else some (state, cp, 0)
  | state, cp, b :: rest =>
    if 12 < state then
      let octet := b % 256
      if stateOK state = true ∧ octet < 256 ∧ octet_category octet < 12
          ∧ state + octet_category octet < 108 then
        match contLoopChecked (state_transition (state + octet_category octet))
            (cpStep cp octet) rest with
        | some r => some (r.1, r.2.1, r.2.2 + 1)
        | none => none
      else none
    else some (state, cp, 0)

/-- The outer loop of `utf8::decode` with the `initial_state` access
guarded: the index `octet - 0xC2` must be below 62. -/
def decodeCheckedAux : Nat → List Nat → Option (List Nat × Nat)
  | _, [] => some ([], 0)
  | 0, _ :: _ => some ([], 0)
  | fuel + 1, b :: rest =>
    let octet := b % 256
    if octet < 128 then
      match decodeCheckedAux fuel rest with
      | some r => some (octet :: r.1, r.2 + 1)
      | none => none
    else if octet < 194 then
      some ([], 1)
    else
      if octet - 194 < 62 then
        match contLoopChecked (initial_state (octet - 194)).2
            (initial_state (octet - 194)).1 rest with
        | none => none
        | some r =>
          if r.1 = 12 then some ([], 1 + r.2.2)
          else
            match decodeCheckedAux fuel (rest.drop r.2.2) with
            | some k => some (r.2.1 :: k.1, 1 + r.2.2 + k.2)
            | none => none
      else none

/-- `decode` with every lookup-table access bounds checked. -/
def decodeChecked (input : List Nat) : Option (List Nat × Nat) :=
  decodeCheckedAux input.length input

theorem contLoop_low (state cp : Nat) (input : List Nat) (h : ¬ 12 < state) :
    contLoop state cp input = (state, cp, 0) := by
  cases input <;> simp [contLoop, h]

theorem contLoop_cons (state cp b : Nat) (rest : List Nat) (h : 12 < state) :
    contLoop state cp (b :: rest) =
      ((contLoop (state_transition (state + octet_category (b % 256)))
          (cpStep cp (b % 256)) rest).1,
       (contLoop (state_transition (state + octet_category (b % 256)))
          (cpStep cp (b % 256)) rest).2.1,
       (contLoop (state_transition (state + octet_category (b % 256)))
          (cpStep cp (b % 256)) rest).2.2 + 1) := by
  simp [contLoop, h]

theorem contLoop_nil (state cp : Nat) (h : 12 < state) :
    contLoop state cp [] = (12, cp, 0) := by
  simp [contLoop, h]

theorem contLoop_consumed_le (input : List Nat) :
    ∀ state cp, (contLoop state cp input).2.2 ≤ input.length := by
  induction input with
  | nil => intro state cp; by_cases h : 12 < state <;> simp [contLoop, h]
  | cons b rest ih =>
    intro state cp
    by_cases h : 12 < state
    · rw [contLoop_cons state cp b rest h]
      simp only [List.length_cons]
      exact Nat.succ_le_succ (ih _ _)
    · rw [contLoop_low state cp _ h]; simp

theorem decodeAux_fuel :
    ∀ f1 f2 (l : List Nat), l.length ≤ f1 → l.length ≤ f2 →
      decodeAux f1 l = decodeAux f2 l := by
  intro f1
  induction f1 with
  | zero =>
    intro f2 l h1 _
    have hl : l = [] := List.eq_nil_of_length_eq_zero (Nat.le_zero.mp h1)
    subst hl; cases f2 <;> rfl
  | succ f ih =>
    intro f2 l h1 h2
    cases l with
    | nil => cases f2 <;> rfl
    | cons b rest =>
      cases f2 with
      | zero => simp at h2
      | succ g =>
        have hr : rest.length ≤ f := by simp only [List.length_cons] at h1; omega
        have hg : rest.length ≤ g := by simp only [List.length_cons] at h2; omega
        simp only [decodeAux]
        by_cases hb : b % 256 < 128
        · simp only [if_pos hb, ih g rest hr hg]
        · simp only [if_neg hb]
          by_cases hb2 : b % 256 < 194
          · simp only [if_pos hb2]
          · simp only [if_neg hb2]
            by_cases he :
              (contLoop (initial_state (b % 256 - 194)).2
                (initial_state (b % 256 - 194)).1 rest).1 = 12
            · simp only [if_pos he]
            · simp only [if_neg he]
              rw [ih g _ (Nat.le_trans (by
                    simp only [List.length_drop]; omega) hr)
                  (Nat.le_trans (by
                    simp only [List.length_drop]; omega) hg)]

theorem decode_nil : decode [] = ([], 0) := rfl

theorem decode_cons (b : Nat) (rest : List Nat) :
    decode (b :: rest) =
      (let octet := b % 256
       if octet < 128 then
         let r := decode rest
         (octet :: r.1, r.2 + 1)
       else if octet < 194 then
         ([], 1)
       else
         let p := initial_state (octet - 194)
         let r := contLoop p.2 p.1 rest
         if r.1 = 12 then
           ([], 1 + r.2.2)
         else
           let k := decode (rest.drop r.2.2)
           (r.2.1 :: k.1, 1 + r.2.2 + k.2)) := by
  show decodeAux (b :: rest).length (b :: rest) = _
  simp only [List.length_cons, decodeAux, decode]
  by_cases hb : b % 256 < 128
  · simp only [if_pos hb]
  · simp only [if_neg hb]
    by_cases hb2 : b % 256 < 194
    · simp only [if_pos hb2]
    · simp only [if_neg hb2]
      by_cases he :
        (contLoop (initial_state (b % 256 - 194)).2
          (initial_state (b % 256 - 194)).1 rest).1 = 12
      · simp only [if_pos he]
      · simp only [if_neg he]
        rw [decodeAux_fuel rest.length _ _ (by
              simp only [List.length_drop]; omega) (Nat.le_refl _)]

theorem lor_mul64 (a m : Nat) (hm : m < 64) : (a * 64) ||| m = a * 64 + m := by
  apply Nat.eq_of_testBit_eq
  intro j
  rw [Nat.testBit_lor]
  have hadd : a * 64 + m = 2 ^ 6 * a + m := by norm_num [Nat.mul_comm]
  have hsh : a * 64 = a <<< 6 := by rw [Nat.shiftLeft_eq]
  rw [hadd, Nat.testBit_mul_pow_two_add a (show m < 2 ^ 6 by omega) j, hsh,
    Nat.testBit_shiftLeft]
  by_cases hj : j < 6
  · simp [hj, Nat.not_le.mpr hj]
  · have h6 : 6 ≤ j := Nat.not_lt.mp hj
    have hm6 : m.testBit j = false := by
      apply Nat.testBit_lt_two_pow
      calc m < 64 := hm
        _ = 2 ^ 6 := by norm_num
        _ ≤ 2 ^ j := Nat.pow_le_pow_right (by norm_num) h6
    simp [hj, h6, hm6]

theorem cpStep_eq (cp b : Nat) (hcp : cp < 67108864) (hb : b < 256) :
    cpStep cp b = cp * 64 + b % 64 := by
  have hand : b &&& 63 = b % 64 := by
    have : (63 : Nat) = 2 ^ 6 - 1 := by norm_num
    rw [this, Nat.and_pow_two_sub_one_eq_mod]
  have hsh : cp <<< 6 = cp * 64 := by rw [Nat.shiftLeft_eq]
  have hlt : cp * 64 < 4294967296 := by omega
  rw [cpStep, hand, hsh, Nat.mod_eq_of_lt hlt, lor_mul64 cp (b % 64) (by omega)]

theorem cat_cr1 : ∀ b < 144, 128 ≤ b → octet_category b = 2 := by decide
theorem cat_cr2 : ∀ b < 160, 144 ≤ b → octet_category b = 3 := by decide
theorem cat_cr3 : ∀ b < 192, 160 ≤ b → octet_category b = 4 := by decide

theorem init_cs1 : ∀ i < 30, initial_state i = (i + 2, 24) := by decide
theorem init_p3a : initial_state 30 = (0, 60) := by decide
theorem init_cs2 : ∀ k < 16, 1 ≤ k → k ≠ 13 → initial_state (30 + k) = (k, 36) := by
  decide
theorem init_p3b : initial_state 43 = (13, 72) := by decide
theorem init_p4a : initial_state 46 = (0, 84) := by decide
theorem init_cs3 : ∀ k < 4, 1 ≤ k → initial_state (46 + k) = (k, 48) := by decide
theorem init_p4b : initial_state 50 = (4, 96) := by decide

/-- Step lemma: one continuation octet read from state `state`, with the
octet below 256 and the accumulator small enough not to wrap. -/
theorem contLoop_step (state cp b : Nat) (rest : List Nat) (h : 12 < state)
    (hcp : cp < 67108864) (hb : b < 256) :
    contLoop state cp (b :: rest) =
      ((contLoop (state_transition (state + octet_category b))
          (cp * 64 + b % 64) rest).1,
       (contLoop (state_transition (state + octet_category b))
          (cp * 64 + b % 64) rest).2.1,
       (contLoop (state_transition (state + octet_category b))
          (cp * 64 + b % 64) rest).2.2 + 1) := by
  rw [contLoop_cons state cp b rest h, Nat.mod_eq_of_lt hb, cpStep_eq cp b hcp hb]

/-- From `CS1`, any continuation octet `0x80–0xBF` completes the sequence. -/
theorem contLoop_cs1_end (cp b : Nat) (rest : List Nat) (hcp : cp < 67108864)
    (hb1 : 128 ≤ b) (hb2 : b < 192) :
    contLoop 24 cp (b :: rest) = (0, cp * 64 + b % 64, 1) := by
  rw [contLoop_step 24 cp b rest (by omega) hcp (by omega)]
  by_cases h2 : b < 144
  · rw [cat_cr1 b h2 hb1, show state_transition (24 + 2) = 0 from by decide,
      contLoop_low _ _ _ (by omega)]
  · by_cases h3 : b < 160
    · rw [cat_cr2 b h3 (by omega), show state_transition (24 + 3) = 0 from by decide,
        contLoop_low _ _ _ (by omega)]
    · rw [cat_cr3 b hb2 (by omega), show state_transition (24 + 4) = 0 from by decide,
        contLoop_low _ _ _ (by omega)]

/-- From `CS2`, any continuation octet `0x80–0xBF` moves to `CS1`. -/
theorem contLoop_cs2_cs1 (cp b : Nat) (rest : List Nat) (hcp : cp < 67108864)
    (hb1 : 128 ≤ b) (hb2 : b < 192) :
    contLoop 36 cp (b :: rest) =
      ((contLoop 24 (cp * 64 + b % 64) rest).1,
       (contLoop 24 (cp * 64 + b % 64) rest).2.1,
       (contLoop 24 (cp * 64 + b % 64) rest).2.2 + 1) := by
  rw [contLoop_step 36 cp b rest (by omega) hcp (by omega)]
  by_cases h2 : b < 144
  · rw [cat_cr1 b h2 hb1, show state_transition (36 + 2) = 24 from by decide]
  · by_cases h3 : b < 160
    · rw [cat_cr2 b h3 (by omega), show state_transition (36 + 3) = 24 from by decide]
    · rw [cat_cr3 b hb2 (by omega), show state_transition (36 + 4) = 24 from by decide]

/-- From `CS3`, any continuation octet `0x80–0xBF` moves to `CS2`. -/
theorem contLoop_cs3_cs2 (cp b : Nat) (rest : List Nat) (hcp : cp < 67108864)
    (hb1 : 128 ≤ b) (hb2 : b < 192) :
    contLoop 48 cp (b :: rest) =
      ((contLoop 36 (cp * 64 + b % 64) rest).1,
       (contLoop 36 (cp * 64 + b % 64) rest).2.1,
       (contLoop 36 (cp * 64 + b % 64) rest).2.2 + 1) := by
  rw [contLoop_step 48 cp b rest (by omega) hcp (by omega)]
  by_cases h2 : b < 144
  · rw [cat_cr1 b h2 hb1, show state_transition (48 + 2) = 36 from by decide]
  · by_cases h3 : b < 160
    · rw [cat_cr2 b h3 (by omega), show state_transition (48 + 3) = 36 from by decide]
    · rw [cat_cr3 b hb2 (by omega), show state_transition (48 + 4) = 36 from by decide]

/-- From `P3A` (leader `0xE0`), an octet `0xA0–0xBF` moves to `CS1`. -/
theorem contLoop_p3a_cs1 (cp b : Nat) (rest : List Nat) (hcp : cp < 67108864)
    (hb1 : 160 ≤ b) (hb2 : b < 192) :
    contLoop 60 cp (b :: rest) =
      ((contLoop 24 (cp * 64 + b % 64) rest).1,
       (contLoop 24 (cp * 64 + b % 64) rest).2.1,
       (contLoop 24 (cp * 64 + b % 64) rest).2.2 + 1) := by
  rw [contLoop_step 60 cp b rest (by omega) hcp (by omega),
    cat_cr3 b hb2 hb1, show state_transition (60 + 4) = 24 from by decide]

/-- From `P3B` (leader `0xED`), an octet `0x80–0x9F` moves to `CS1`. -/
theorem contLoop_p3b_cs1 (cp b : Nat) (rest : List Nat) (hcp : cp < 67108864)
    (hb1 : 128 ≤ b) (hb2 : b < 160) :
    contLoop 72 cp (b :: rest) =
      ((contLoop 24 (cp * 64 + b % 64) rest).1,
       (contLoop 24 (cp * 64 + b % 64) rest).2.1,
       (contLoop 24 (cp * 64 + b % 64) rest).2.2 + 1) := by
  rw [contLoop_step 72 cp b rest (by omega) hcp (by omega)]
  by_cases h2 : b < 144
  · rw [cat_cr1 b h2 hb1, show state_transition (72 + 2) = 24 from by decide]
  · rw [cat_cr2 b hb2 (by omega), show state_transition (72 + 3) = 24 from by decide]

/-- From `P4A` (leader `0xF0`), an octet `0x90–0xBF` moves to `CS2`. -/
theorem contLoop_p4a_cs2 (cp b : Nat) (rest : List Nat) (hcp : cp < 67108864)
    (hb1 : 144 ≤ b) (hb2 : b < 192) :
    contLoop 84 cp (b :: rest) =
      ((contLoop 36 (cp * 64 + b % 64) rest).1,
       (contLoop 36 (cp * 64 + b % 64) rest).2.1,
       (contLoop 36 (cp * 64 + b % 64) rest).2.2 + 1) := by
  rw [contLoop_step 84 cp b rest (by omega) hcp (by omega)]
  by_cases h3 : b < 160
  · rw [cat_cr2 b h3 hb1, show state_transition (84 + 3) = 36 from by decide]
  · rw [cat_cr3 b hb2 (by omega), show state_transition (84 + 4) = 36 from by decide]

/-- From `P4B` (leader `0xF4`), an octet `0x80–0x8F` moves to `CS2`. -/
theorem contLoop_p4b_cs2 (cp b : Nat) (rest : List Nat) (hcp : cp < 67108864)
    (hb1 : 128 ≤ b) (hb2 : b < 144) :
    contLoop 96 cp (b :: rest) =
      ((contLoop 36 (cp * 64 + b % 64) rest).1,
       (contLoop 36 (cp * 64 + b % 64) rest).2.1,
       (contLoop 36 (cp * 64 + b % 64) rest).2.2 + 1) := by
  rw [contLoop_step 96 cp b rest (by omega) hcp (by omega),
    cat_cr1 b hb2 hb1, show state_transition (96 + 2) = 36 from by decide]

/-- ASCII fast path of the outer loop. -/
theorem decode_cons_asc (b : Nat) (rest : List Nat) (h : b % 256 < 128) :
    decode (b :: rest) = ((b % 256) :: (decode rest).1, (decode rest).2 + 1) := by
  rw [decode_cons]; simp only [if_pos h]

/-- Invalid leading octet (`0x80–0xC1`): return with exactly one octet read. -/
theorem decode_cons_inv (b : Nat) (rest : List Nat) (h1 : ¬ b % 256 < 128)
    (h2 : b % 256 < 194) : decode (b :: rest) = ([], 1) := by
  rw [decode_cons]; simp only [if_neg h1, if_pos h2]

/-- Multi-octet sequence that completes: one code point written, then the
outer loop resumes after the consumed continuation octets. -/
theorem decode_cons_ok (b : Nat) (rest : List Nat) (cp n : Nat)
    (h1 : 194 ≤ b) (h2 : b < 256)
    (hc : contLoop (initial_state (b - 194)).2 (initial_state (b - 194)).1 rest
            = (0, cp, n)) :
    decode (b :: rest) =
      (cp :: (decode (rest.drop n)).1, 1 + n + (decode (rest.drop n)).2) := by
  rw [decode_cons]
  simp only [Nat.mod_eq_of_lt h2]
  rw [if_neg (by omega), if_neg (by omega)]
  simp only [hc]
  norm_num

/-- Multi-octet sequence that fails: nothing written, return after the
octets read so far. -/
theorem decode_cons_err (b : Nat) (rest : List Nat) (cp n : Nat)
    (h1 : 194 ≤ b) (h2 : b < 256)
    (hc : contLoop (initial_state (b - 194)).2 (initial_state (b - 194)).1 rest
            = (12, cp, n)) :
    decode (b :: rest) = ([], 1 + n) := by
  rw [decode_cons]
  simp only [Nat.mod_eq_of_lt h2]
  rw [if_neg (by omega), if_neg (by omega)]
  simp only [hc]
  norm_num

/-- Round trip, one-octet range. -/
theorem roundtrip1 (v : Nat) (h : v < 128) : decode [v] = ([v], 1) := by
  rw [decode_cons_asc v [] (by omega)]
  simp [Nat.mod_eq_of_lt (show v < 256 by omega), decode_nil]

/-- Round trip, two-octet range. -/
theorem roundtrip2 (v : Nat) (h1 : 128 ≤ v) (h2 : v < 2048) :
    decode [192 + v / 64, 128 + v % 64] = ([v], 2) := by
  have hc : contLoop (initial_state (192 + v / 64 - 194)).2
      (initial_state (192 + v / 64 - 194)).1 [128 + v % 64] = (0, v, 1) := by
    have hidx : 192 + v / 64 - 194 = v / 64 - 2 := by omega
    rw [hidx, init_cs1 (v / 64 - 2) (by omega)]
    have hp : v / 64 - 2 + 2 = v / 64 := by omega
    simp only [hp]
    rw [contLoop_cs1_end (v / 64) (128 + v % 64) [] (by omega) (by omega) (by omega)]
    have : v / 64 * 64 + (128 + v % 64) % 64 = v := by omega
    rw [this]
  rw [decode_cons_ok (192 + v / 64) [128 + v % 64] v 1 (by omega) (by omega) hc]
  simp [decode_nil]

/-- Round trip, three-octet range, leader `0xE0`. -/
theorem roundtrip3a (v : Nat) (h1 : 2048 ≤ v) (h2 : v < 4096) :
    decode [224 + v / 4096, 128 + v / 64 % 64, 128 + v % 64] = ([v], 3) := by
  have hz : v / 4096 = 0 := by omega
  have hc : contLoop (initial_state (224 + v / 4096 - 194)).2
      (initial_state (224 + v / 4096 - 194)).1 [128 + v / 64 % 64, 128 + v % 64]
      = (0, v, 2) := by
    rw [hz, show 224 + 0 - 194 = 30 from by norm_num, init_p3a]
    rw [contLoop_p3a_cs1 0 (128 + v / 64 % 64) _ (by norm_num) (by omega) (by omega)]
    rw [contLoop_cs1_end _ (128 + v % 64) [] (by omega) (by omega) (by omega)]
    dsimp only
    simp only [Prod.mk.injEq, true_and, and_true]
    omega
  rw [decode_cons_ok _ _ v 2 (by omega) (by omega) hc]
  simp [decode_nil]

/-- Round trip, three-octet range, leader `0xED` (below the surrogates). -/
theorem roundtrip3b (v : Nat) (h1 : 53248 ≤ v) (h2 : v < 55296) :
    decode [224 + v / 4096, 128 + v / 64 % 64, 128 + v % 64] = ([v], 3) := by
  have hz : v / 4096 = 13 := by omega
  have hc : contLoop (initial_state (224 + v / 4096 - 194)).2
      (initial_state (224 + v / 4096 - 194)).1 [128 + v / 64 % 64, 128 + v % 64]
      = (0, v, 2) := by
    rw [hz, show 224 + 13 - 194 = 43 from by norm_num, init_p3b]
    rw [contLoop_p3b_cs1 13 (128 + v / 64 % 64) _ (by norm_num) (by omega) (by omega)]
    rw [contLoop_cs1_end _ (128 + v % 64) [] (by omega) (by omega) (by omega)]
    dsimp only
    simp only [Prod.mk.injEq, true_and, and_true]
    omega
  rw [decode_cons_ok _ _ v 2 (by omega) (by omega) hc]
  simp [decode_nil]

/-- Round trip, three-octet range, generic leaders `0xE1–0xEF` except `0xED`. -/
theorem roundtrip3c (v : Nat) (h1 : 4096 ≤ v) (h2 : v < 65536)
    (h3 : v / 4096 ≠ 13) :
    decode [224 + v / 4096, 128 + v / 64 % 64, 128 + v % 64] = ([v], 3) := by
  have hc : contLoop (initial_state (224 + v / 4096 - 194)).2
      (initial_state (224 + v / 4096 - 194)).1 [128 + v / 64 % 64, 128 + v % 64]
      = (0, v, 2) := by
    rw [show 224 + v / 4096 - 194 = 30 + v / 4096 from by omega,
      init_cs2 (v / 4096) (by omega) (by omega) h3]
    rw [contLoop_cs2_cs1 _ (128 + v / 64 % 64) _ (by omega) (by omega) (by omega)]
    rw [contLoop_cs1_end _ (128 + v % 64) [] (by omega) (by omega) (by omega)]
    dsimp only
    simp only [Prod.mk.injEq, true_and, and_true]
    omega
  rw [decode_cons_ok _ _ v 2 (by omega) (by omega) hc]
  simp [decode_nil]

/-- Round trip, four-octet range, leader `0xF0`. -/
theorem roundtrip4a (v : Nat) (h1 : 65536 ≤ v) (h2 : v < 262144) :
    decode [240 + v / 262144, 128 + v / 4096 % 64, 128 + v / 64 % 64, 128 + v % 64]
      = ([v], 4) := by
  have hz : v / 262144 = 0 := by omega
  have hc : contLoop (initial_state (240 + v / 262144 - 194)).2
      (initial_state (240 + v / 262144 - 194)).1
      [128 + v / 4096 % 64, 128 + v / 64 % 64, 128 + v % 64] = (0, v, 3) := by
    rw [hz, show 240 + 0 - 194 = 46 from by norm_num, init_p4a]
    rw [contLoop_p4a_cs2 0 (128 + v / 4096 % 64) _ (by norm_num) (by omega) (by omega)]
    rw [contLoop_cs2_cs1 _ (128 + v / 64 % 64) _ (by omega) (by omega) (by omega)]
    rw [contLoop_cs1_end _ (128 + v % 64) [] (by omega) (by omega) (by omega)]
    dsimp only
    simp only [Prod.mk.injEq, true_and, and_true]
    omega
  rw [decode_cons_ok _ _ v 3 (by omega) (by omega) hc]
  simp [decode_nil]

/-- Round trip, four-octet range, leaders `0xF1–0xF3`. -/
theorem roundtrip4b (v : Nat) (h1 : 262144 ≤ v) (h2 : v < 1048576) :
    decode [240 + v / 262144, 128 + v / 4096 % 64, 128 + v / 64 % 64, 128 + v % 64]
      = ([v], 4) := by
  have hc : contLoop (initial_state (240 + v / 262144 - 194)).2
      (initial_state (240 + v / 262144 - 194)).1
      [128 + v / 4096 % 64, 128 + v / 64 % 64, 128 + v % 64] = (0, v, 3) := by
    rw [show 240 + v / 262144 - 194 = 46 + v / 262144 from by omega,
      init_cs3 (v / 262144) (by omega) (by omega)]
    rw [contLoop_cs3_cs2 _ (128 + v / 4096 % 64) _ (by omega) (by omega) (by omega)]
    rw [contLoop_cs2_cs1 _ (128 + v / 64 % 64) _ (by omega) (by omega) (by omega)]
    rw [contLoop_cs1_end _ (128 + v % 64) [] (by omega) (by omega) (by omega)]
    dsimp only
    simp only [Prod.mk.injEq, true_and, and_true]
    omega
  rw [decode_cons_ok _ _ v 3 (by omega) (by omega) hc]
  simp [decode_nil]

/-- Round trip, four-octet range, leader `0xF4`. -/
theorem roundtrip4c (v : Nat) (h1 : 1048576 ≤ v) (h2 : v ≤ 1114111) :
    decode [240 + v / 262144, 128 + v / 4096 % 64, 128 + v / 64 % 64, 128 + v % 64]
      = ([v], 4) := by
  have hz : v / 262144 = 4 := by omega
  have hc : contLoop (initial_state (240 + v / 262144 - 194)).2
      (initial_state (240 + v / 262144 - 194)).1
      [128 + v / 4096 % 64, 128 + v / 64 % 64, 128 + v % 64] = (0, v, 3) := by
    rw [hz, show 240 + 4 - 194 = 50 from by norm_num, init_p4b]
    rw [contLoop_p4b_cs2 4 (128 + v / 4096 % 64) _ (by norm_num) (by omega) (by omega)]
    rw [contLoop_cs2_cs1 _ (128 + v / 64 % 64) _ (by omega) (by omega) (by omega)]
    rw [contLoop_cs1_end _ (128 + v % 64) [] (by omega) (by omega) (by omega)]
    dsimp only
    simp only [Prod.mk.injEq, true_and, and_true]
    omega
  rw [decode_cons_ok _ _ v 3 (by omega) (by omega) hc]
  simp [decode_nil]

example : decode [0x41, 0x42] = ([0x41, 0x42], 2) := by decide
example : decode [0xC3, 0xA9] = ([0xE9], 2) := by decide
example : decode [0xED, 0xA0, 0x80] = ([], 2) := by decide
example : decode [0xC0, 0x80] = ([], 1) := by decide
example : decode [0xF0] = ([], 1) := by decide
example : decode [0xF4, 0x8F, 0xBF, 0xBF] = ([0x10FFFF], 4) := by decide
example : decode [0xE0, 0xA0, 0x80] = ([0x800], 3) := by decide

/-- C1: for every Unicode scalar value `v` in `[0, 0x10FFFF]` excluding the
surrogate range `[0xD800, 0xDFFF]`, running `decode` on the octets produced
by a correct reference UTF-8 encoder for `v` emits exactly the single code
point `v` and returns a position equal to the end of the encoded octets
(the full encoded length is consumed). -/
theorem roundtrip_scalar (v : Nat) (hv : v ≤ 1114111)
    (hs : ¬ (55296 ≤ v ∧ v ≤ 57343)) :
    decode (utf8EncodeRef v) = ([v], (utf8EncodeRef v).length) := by
  by_cases c1 : v < 128
  · simp only [utf8EncodeRef, if_pos c1]
    rw [roundtrip1 v c1]; simp
  · by_cases c2 : v < 2048
    · simp only [utf8EncodeRef, if_neg c1, if_pos c2]
      rw [roundtrip2 v (by omega) c2]; simp
    · by_cases c3 : v < 65536
      · simp only [utf8EncodeRef, if_neg c1, if_neg c2, if_pos c3]
        by_cases d1 : v < 4096
        · rw [roundtrip3a v (by omega) d1]; simp
        · by_cases d2 : v / 4096 = 13
          · rw [roundtrip3b v (by omega) (by omega)]; simp
          · rw [roundtrip3c v (by omega) c3 d2]; simp
      · simp only [utf8EncodeRef, if_neg c1, if_neg c2, if_neg c3]
        by_cases e1 : v < 262144
        · rw [roundtrip4a v (by omega) e1]; simp
        · by_cases e2 : v < 1048576
          · rw [roundtrip4b v (by omega) e2]; simp
          · rw [roundtrip4c v (by omega) hv]; simp

/-- Witness for C1 at the maximum scalar value `v = 0x10FFFF`. -/
theorem roundtrip_scalar_w :
    decode (utf8EncodeRef 1114111) = ([1114111], (utf8EncodeRef 1114111).length) :=
  roundtrip_scalar 1114111 (by decide) (by decide)

/-- C2 (counterexample): the claim that `decode` on `0xC0 0x80` returns
position 2 with no output fails: the returned position is 1, not 2 (the
`octet < 0xC2` guard rejects `0xC0` right after it is read, before any
second octet). -/
theorem overlong_c0_80_cex : (decode [0xC0, 0x80]).2 ≠ 2 := by decide

/-- C2 (amended): running `decode` on the two-octet input `0xC0 0x80` (the
overlong encoding of U+0000) returns position 1 — only the leading octet
`0xC0` has been read when the `octet < 0xC2` guard rejects it — and pushes
zero code points to the output sink. -/
theorem overlong_c0_80 : decode [0xC0, 0x80] = ([], 1) := by decide

/-- C5: running `decode` on the three-octet input `0xED 0xA0 0x80` (the
encoding of the surrogate U+D800) returns position 2 — after reading the
leader `0xED` and the restricted second octet `0xA0` — and pushes zero code
points to the output sink. -/
theorem surrogate_ed_a0_80 : decode [0xED, 0xA0, 0x80] = ([], 2) := by decide

/-- C6: when the input ends in the middle of a multi-octet sequence, the
inner loop finds the input exhausted while a sequence is pending
(`12 < state`), forces the state to `ERR` without reading further, and so
`decode` reports the error at the position reached (the end of input),
exactly as for any other malformed sequence; in particular the lone 4-octet
leader `0xF0` yields position 1 and zero code points. -/
theorem decode_truncation :
    (∀ state cp, 12 < state → contLoop state cp [] = (12, cp, 0)) ∧
      decode [0xF0] = ([], 1) :=
  ⟨fun state cp h => contLoop_nil state cp h, by decide⟩

/-- Witness for C6 at `state = P4A = 84`, the pending state after `0xF0`. -/
theorem decode_truncation_w : contLoop 84 0 [] = (12, 0, 0) ∧ decode [0xF0] = ([], 1) :=
  ⟨decode_truncation.1 84 0 (by decide), decode_truncation.2⟩

/-- C7: on any input whose octets are all below `0x80`, `decode` takes the
ASCII fast path for every octet: it pushes exactly the input octets (zero
extended), in input order, and returns the input length. -/
theorem decode_all_ascii (input : List Nat) (h : ∀ b ∈ input, b < 128) :
    decode input = (input, input.length) := by
  induction input with
  | nil => rfl
  | cons b rest ih =>
    have hb : b < 128 := h b (List.mem_cons_self b rest)
    have hm : b % 256 = b := Nat.mod_eq_of_lt (by omega)
    rw [decode_cons_asc b rest (by omega), hm,
      ih (fun x hx => h x (List.mem_cons_of_mem b hx))]
    simp [List.length_cons]

/-- Witness for C7 on the concrete ASCII input `"Hi"`. -/
theorem decode_all_ascii_w : decode [72, 105] = ([72, 105], 2) := by
  have h := decode_all_ascii [72, 105] (by decide)
  simpa using h

theorem decodeAux_pos_le : ∀ fuel (l : List Nat), (decodeAux fuel l).2 ≤ l.length := by
  intro fuel
  induction fuel with
  | zero => intro l; cases l <;> simp [decodeAux]
  | succ f ih =>
    intro l
    cases l with
    | nil => simp [decodeAux]
    | cons b rest =>
      simp only [decodeAux, List.length_cons]
      by_cases hb : b % 256 < 128
      · simp only [if_pos hb]
        have := ih rest
        omega
      · simp only [if_neg hb]
        by_cases hb2 : b % 256 < 194
        · simp only [if_pos hb2]; omega
        · simp only [if_neg hb2]
          have h1 := contLoop_consumed_le rest (initial_state (b % 256 - 194)).2
            (initial_state (b % 256 - 194)).1
          by_cases he : (contLoop (initial_state (b % 256 - 194)).2
              (initial_state (b % 256 - 194)).1 rest).1 = 12
          · simp only [if_pos he]; omega
          · simp only [if_neg he]
            have h2 := ih (rest.drop (contLoop (initial_state (b % 256 - 194)).2
              (initial_state (b % 256 - 194)).1 rest).2.2)
            simp only [List.length_drop] at h2
            omega

/-- C9: `decode` terminates on every finite input (it is a total function
of the input list, with the inner loop consuming one octet per iteration
and the outer loop at least one octet per iteration), and the returned
position never exceeds the input length: the iterator returned is between
`begin` and `end`. -/
theorem decode_pos_le (input : List Nat) : (decode input).2 ≤ input.length :=
  decodeAux_pos_le input.length input

theorem decodeAux_out_le : ∀ fuel (l : List Nat), (decodeAux fuel l).1.length ≤ l.length := by
  intro fuel
  induction fuel with
  | zero => intro l; cases l <;> simp [decodeAux]
  | succ f ih =>
    intro l
    cases l with
    | nil => simp [decodeAux]
    | cons b rest =>
      simp only [decodeAux, List.length_cons]
      by_cases hb : b % 256 < 128
      · simp only [if_pos hb]
        have := ih rest
        simp only [List.length_cons]
        omega
      · simp only [if_neg hb]
        by_cases hb2 : b % 256 < 194
        · simp only [if_pos hb2]; simp
        · simp only [if_neg hb2]
          have h1 := contLoop_consumed_le rest (initial_state (b % 256 - 194)).2
            (initial_state (b % 256 - 194)).1
          by_cases he : (contLoop (initial_state (b % 256 - 194)).2
              (initial_state (b % 256 - 194)).1 rest).1 = 12
          · simp only [if_pos he]; simp
          · simp only [if_neg he]
            have h2 := ih (rest.drop (contLoop (initial_state (b % 256 - 194)).2
              (initial_state (b % 256 - 194)).1 rest).2.2)
            simp only [List.length_drop] at h2
            simp only [List.length_cons]
            omega

/-- C10: on any input of `N` octets, `decode` pushes at most `N` code
points to the output sink (one per ASCII octet, at most one per multi-octet
sequence, which costs at least its leading octet). -/
theorem decode_out_le (input : List Nat) : (decode input).1.length ≤ input.length :=
  decodeAux_out_le input.length input

/-- The multi-octet branch of the outer loop when the inner loop does not
exit in `ERR`, stated for an arbitrary leading octet. -/
theorem decode_cons_go (b : Nat) (rest : List Nat) (s cp n : Nat)
    (h2 : ¬ b % 256 < 194)
    (hc : contLoop (initial_state (b % 256 - 194)).2
            (initial_state (b % 256 - 194)).1 rest = (s, cp, n))
    (hs : s ≠ 12) :
    decode (b :: rest) =
      (cp :: (decode (rest.drop n)).1, 1 + n + (decode (rest.drop n)).2) := by
  rw [decode_cons]
  simp only [if_neg (show ¬ b % 256 < 128 by omega), if_neg h2, hc]
  simp [hs]

/-- The multi-octet branch of the outer loop when the inner loop exits in
`ERR`, stated for an arbitrary leading octet. -/
theorem decode_cons_stop (b : Nat) (rest : List Nat) (cp n : Nat)
    (h2 : ¬ b % 256 < 194)
    (hc : contLoop (initial_state (b % 256 - 194)).2
            (initial_state (b % 256 - 194)).1 rest = (12, cp, n)) :
    decode (b :: rest) = ([], 1 + n) := by
  rw [decode_cons]
  simp only [if_neg (show ¬ b % 256 < 128 by omega), if_neg h2, hc]
  simp

/-- Every initial DFA state in the table is either `ERR` or a pending
state strictly above `ERR`. -/
theorem init_state_cases : ∀ i < 62, (initial_state i).2 = 12 ∨ 12 < (initial_state i).2 := by
  decide

/-- An inner-loop run that does not exit in `ERR` is insensitive to the
octets beyond the ones it consumed: it was stopped by a transition, not by
the end of the input. -/
theorem contLoop_ok_extend :
    ∀ (rest : List Nat) (st c0 s cp n : Nat), 12 < st →
      contLoop st c0 rest = (s, cp, n) → s ≠ 12 →
      ∀ tail, contLoop st c0 (rest.take n ++ tail) = (s, cp, n) := by
  intro rest
  induction rest with
  | nil =>
    intro st c0 s cp n hst hc hs tail
    rw [contLoop_nil st c0 hst] at hc
    exact absurd (congrArg Prod.fst hc).symm (by simpa using hs)
  | cons b rs ih =>
    intro st c0 s cp n hst hc hs tail
    rw [contLoop_cons st c0 b rs hst] at hc
    have h1 : (contLoop (state_transition (st + octet_category (b % 256)))
        (cpStep c0 (b % 256)) rs).1 = s := congrArg Prod.fst hc
    have h2 : (contLoop (state_transition (st + octet_category (b % 256)))
        (cpStep c0 (b % 256)) rs).2.1 = cp := congrArg (fun q => q.2.1) hc
    have h3 : (contLoop (state_transition (st + octet_category (b % 256)))
        (cpStep c0 (b % 256)) rs).2.2 + 1 = n := congrArg (fun q => q.2.2) hc
    by_cases hst2 : 12 < state_transition (st + octet_category (b % 256))
    · have hrec : contLoop (state_transition (st + octet_category (b % 256)))
          (cpStep c0 (b % 256)) rs =
          (s, cp, (contLoop (state_transition (st + octet_category (b % 256)))
            (cpStep c0 (b % 256)) rs).2.2) := by
        rw [Prod.ext_iff, Prod.ext_iff]
        exact ⟨h1, h2, rfl⟩
      have hn1 : 1 ≤ n := by omega
      have htk : (b :: rs).take n = b :: rs.take (n - 1) := by
        obtain ⟨m, hm⟩ : ∃ m, n = m + 1 := ⟨n - 1, by omega⟩
        subst hm
        simp
      rw [htk]
      have := ih (state_transition (st + octet_category (b % 256)))
        (cpStep c0 (b % 256)) s cp (n - 1) hst2 (by rw [hrec]; congr 2; omega) hs tail
      rw [List.cons_append, contLoop_cons st c0 b _ hst, this]
      simp only [Prod.mk.injEq, true_and, and_true]
      omega
    · rw [contLoop_low _ _ rs hst2] at hc
      have hn : n = 1 := by
        have := congrArg (fun q => q.2.2) hc
        simpa using this.symm
      have hsv : s = state_transition (st + octet_category (b % 256)) := by
        have := congrArg Prod.fst hc
        simpa using this.symm
      have hcp : cp = cpStep c0 (b % 256) := by
        have := congrArg (fun q => q.2.1) hc
        simpa using this.symm
      subst hn
      rw [show (b :: rs).take 1 = [b] from by simp, List.cons_append,
        List.nil_append, contLoop_cons st c0 b tail hst, contLoop_low _ _ tail hst2]
      simp [hsv, hcp]

/-- An inner-loop run that exits in `ERR` on an octet it actually read
(not at the end of the input), when cut one octet shorter, exits in `ERR`
at the end of the shortened input having consumed one octet fewer. -/
theorem contLoop_err_take :
    ∀ (rest : List Nat) (st c0 cp n : Nat), 12 < st →
      contLoop st c0 rest = (12, cp, n) → 1 ≤ n → n < rest.length →
      ∃ cp2, contLoop st c0 (rest.take (n - 1)) = (12, cp2, n - 1) := by
  intro rest
  induction rest with
  | nil =>
    intro st c0 cp n hst hc h1 h2
    simp at h2
  | cons b rs ih =>
    intro st c0 cp n hst hc h1 h2
    rw [contLoop_cons st c0 b rs hst] at hc
    have hA : (contLoop (state_transition (st + octet_category (b % 256)))
        (cpStep c0 (b % 256)) rs).1 = 12 := congrArg Prod.fst hc
    have hB : (contLoop (state_transition (st + octet_category (b % 256)))
        (cpStep c0 (b % 256)) rs).2.1 = cp := congrArg (fun q => q.2.1) hc
    have hC : (contLoop (state_transition (st + octet_category (b % 256)))
        (cpStep c0 (b % 256)) rs).2.2 + 1 = n := congrArg (fun q => q.2.2) hc
    by_cases hn1 : n = 1
    · subst hn1
      exact ⟨c0, by simpa using contLoop_nil st c0 hst⟩
    · have hst2 : 12 < state_transition (st + octet_category (b % 256)) := by
        by_contra hle
        rw [contLoop_low _ _ rs hle] at hA hC
        simp at hC
        omega
      have hrec : contLoop (state_transition (st + octet_category (b % 256)))
          (cpStep c0 (b % 256)) rs = (12, cp, n - 1) := by
        rw [Prod.ext_iff, Prod.ext_iff]
        refine ⟨hA, hB, ?_⟩
        show (contLoop (state_transition (st + octet_category (b % 256)))
          (cpStep c0 (b % 256)) rs).2.2 = n - 1
        omega
      obtain ⟨cp2, hx⟩ := ih (state_transition (st + octet_category (b % 256)))
        (cpStep c0 (b % 256)) cp (n - 1) hst2 hrec (by omega)
        (by simp only [List.length_cons] at h2; omega)
      refine ⟨cp2, ?_⟩
      have htk : (b :: rs).take (n - 1) = b :: rs.take (n - 2) := by
        obtain ⟨m, hm⟩ : ∃ m, n - 1 = m + 1 := ⟨n - 2, by omega⟩
        rw [hm]
        simp
        omega
      rw [htk, contLoop_cons st c0 b _ hst]
      have hx2 : contLoop (state_transition (st + octet_category (b % 256)))
          (cpStep c0 (b % 256)) (rs.take (n - 2)) = (12, cp2, n - 2) := by
        have : n - 1 - 1 = n - 2 := by omega
        rw [this] at hx
        exact hx
      rw [hx2]
      simp only [Prod.mk.injEq, true_and, and_true]
      omega

theorem decode_early_aux :
    ∀ (m : Nat) (input : List Nat), input.length ≤ m → ∀ out p,
      decode input = (out, p) → p ≠ input.length →
      1 ≤ p ∧ decode (input.take (p - 1)) = (out, p - 1) := by
  intro m
  induction m with
  | zero =>
    intro input hlen out p hd hne
    have hnil : input = [] := List.eq_nil_of_length_eq_zero (Nat.le_zero.mp hlen)
    subst hnil
    rw [decode_nil] at hd
    injection hd with ho hp
    subst ho
    subst hp
    simp at hne
  | succ m ih =>
    intro input hlen out p hd hne
    cases input with
    | nil =>
      rw [decode_nil] at hd
      injection hd with ho hp
      subst ho
      subst hp
      simp at hne
    | cons b rest =>
      simp only [List.length_cons] at hlen hne
      by_cases hb : b % 256 < 128
      · rw [decode_cons_asc b rest hb] at hd
        injection hd with ho hp
        subst ho
        subst hp
        have hne2 : (decode rest).2 ≠ rest.length := by omega
        obtain ⟨h1, h2⟩ := ih rest (by omega) (decode rest).1 (decode rest).2 rfl hne2
        refine ⟨by omega, ?_⟩
        have htk : (b :: rest).take ((decode rest).2 + 1 - 1)
            = b :: rest.take ((decode rest).2 - 1) := by
          obtain ⟨k, hk⟩ : ∃ k, (decode rest).2 = k + 1 := ⟨(decode rest).2 - 1, by omega⟩
          rw [hk]
          simp
        rw [htk, decode_cons_asc b _ hb, h2]
        simp only [Prod.mk.injEq, true_and]
        omega
      · by_cases hb2 : b % 256 < 194
        · rw [decode_cons_inv b rest hb hb2] at hd
          injection hd with ho hp
          subst ho
          subst hp
          exact ⟨Nat.le_refl 1, by simp [decode_nil]⟩
        · have hmod : b % 256 < 256 := Nat.mod_lt _ (by norm_num)
          have hidx : b % 256 - 194 < 62 := by omega
          rcases init_state_cases _ hidx with h12 | hgt
          · have hc : contLoop (initial_state (b % 256 - 194)).2
                (initial_state (b % 256 - 194)).1 rest
                = (12, (initial_state (b % 256 - 194)).1, 0) := by
              rw [h12, contLoop_low _ _ _ (by omega)]
            rw [decode_cons_stop b rest _ 0 hb2 hc] at hd
            injection hd with ho hp
            subst ho
            subst hp
            exact ⟨by omega, by simp [decode_nil]⟩
          · by_cases he : (contLoop (initial_state (b % 256 - 194)).2
                (initial_state (b % 256 - 194)).1 rest).1 = 12
            · have hc : contLoop (initial_state (b % 256 - 194)).2
                  (initial_state (b % 256 - 194)).1 rest
                  = (12, (contLoop (initial_state (b % 256 - 194)).2
                      (initial_state (b % 256 - 194)).1 rest).2.1,
                     (contLoop (initial_state (b % 256 - 194)).2
                      (initial_state (b % 256 - 194)).1 rest).2.2) := by
                rw [Prod.ext_iff, Prod.ext_iff]
                exact ⟨he, rfl, rfl⟩
              rw [decode_cons_stop b rest _ _ hb2 hc] at hd
              injection hd with ho hp
              subst ho
              subst hp
              have hnle := contLoop_consumed_le rest (initial_state (b % 256 - 194)).2
                (initial_state (b % 256 - 194)).1
              have hlt : (contLoop (initial_state (b % 256 - 194)).2
                  (initial_state (b % 256 - 194)).1 rest).2.2 < rest.length := by omega
              refine ⟨by omega, ?_⟩
              by_cases hn0 : (contLoop (initial_state (b % 256 - 194)).2
                  (initial_state (b % 256 - 194)).1 rest).2.2 = 0
              · rw [hn0]
                simp [decode_nil]
              · obtain ⟨cp2, hx⟩ := contLoop_err_take rest
                  (initial_state (b % 256 - 194)).2 (initial_state (b % 256 - 194)).1
                  _ _ hgt hc (by omega) hlt
                have htk : (b :: rest).take (1 + (contLoop (initial_state (b % 256 - 194)).2
                      (initial_state (b % 256 - 194)).1 rest).2.2 - 1)
                    = b :: rest.take ((contLoop (initial_state (b % 256 - 194)).2
                      (initial_state (b % 256 - 194)).1 rest).2.2 - 1) := by
                  have h' : 1 + (contLoop (initial_state (b % 256 - 194)).2
                      (initial_state (b % 256 - 194)).1 rest).2.2 - 1
                      = ((contLoop (initial_state (b % 256 - 194)).2
                          (initial_state (b % 256 - 194)).1 rest).2.2 - 1) + 1 := by omega
                  rw [h', List.take_succ_cons]
                rw [htk, decode_cons_stop b _ cp2 _ hb2 hx]
                simp only [Prod.mk.injEq, true_and]
                omega
            · rw [decode_cons_go b rest
                  (contLoop (initial_state (b % 256 - 194)).2
                    (initial_state (b % 256 - 194)).1 rest).1
                  (contLoop (initial_state (b % 256 - 194)).2
                    (initial_state (b % 256 - 194)).1 rest).2.1
                  (contLoop (initial_state (b % 256 - 194)).2
                    (initial_state (b % 256 - 194)).1 rest).2.2 hb2 rfl he] at hd
              injection hd with ho hp
              subst ho
              subst hp
              have hnle := contLoop_consumed_le rest (initial_state (b % 256 - 194)).2
                (initial_state (b % 256 - 194)).1
              have hdl : (rest.drop (contLoop (initial_state (b % 256 - 194)).2
                  (initial_state (b % 256 - 194)).1 rest).2.2).length
                  = rest.length - (contLoop (initial_state (b % 256 - 194)).2
                      (initial_state (b % 256 - 194)).1 rest).2.2 := by
                simp [List.length_drop]
              have hne2 : (decode (rest.drop (contLoop (initial_state (b % 256 - 194)).2
                  (initial_state (b % 256 - 194)).1 rest).2.2)).2
                  ≠ (rest.drop (contLoop (initial_state (b % 256 - 194)).2
                      (initial_state (b % 256 - 194)).1 rest).2.2).length := by
                rw [hdl]
                omega
              obtain ⟨h1, h2⟩ := ih (rest.drop (contLoop (initial_state (b % 256 - 194)).2
                  (initial_state (b % 256 - 194)).1 rest).2.2) (by rw [hdl]; omega)
                (decode (rest.drop (contLoop (initial_state (b % 256 - 194)).2
                  (initial_state (b % 256 - 194)).1 rest).2.2)).1
                (decode (rest.drop (contLoop (initial_state (b % 256 - 194)).2
                  (initial_state (b % 256 - 194)).1 rest).2.2)).2 rfl hne2
              refine ⟨by omega, ?_⟩
              have hext := contLoop_ok_extend rest (initial_state (b % 256 - 194)).2
                (initial_state (b % 256 - 194)).1
                (contLoop (initial_state (b % 256 - 194)).2
                  (initial_state (b % 256 - 194)).1 rest).1
                (contLoop (initial_state (b % 256 - 194)).2
                  (initial_state (b % 256 - 194)).1 rest).2.1
                (contLoop (initial_state (b % 256 - 194)).2
                  (initial_state (b % 256 - 194)).1 rest).2.2
                hgt rfl he
                ((rest.drop (contLoop (initial_state (b % 256 - 194)).2
                  (initial_state (b % 256 - 194)).1 rest).2.2).take
                  ((decode (rest.drop (contLoop (initial_state (b % 256 - 194)).2
                    (initial_state (b % 256 - 194)).1 rest).2.2)).2 - 1))
              have htk : (b :: rest).take
                  (1 + (contLoop (initial_state (b % 256 - 194)).2
                    (initial_state (b % 256 - 194)).1 rest).2.2
                   + (decode (rest.drop (contLoop (initial_state (b % 256 - 194)).2
                      (initial_state (b % 256 - 194)).1 rest).2.2)).2 - 1)
                  = b :: (rest.take (contLoop (initial_state (b % 256 - 194)).2
                      (initial_state (b % 256 - 194)).1 rest).2.2
                     ++ (rest.drop (contLoop (initial_state (b % 256 - 194)).2
                        (initial_state (b % 256 - 194)).1 rest).2.2).take
                        ((decode (rest.drop (contLoop (initial_state (b % 256 - 194)).2
                          (initial_state (b % 256 - 194)).1 rest).2.2)).2 - 1)) := by
                have h' : 1 + (contLoop (initial_state (b % 256 - 194)).2
                    (initial_state (b % 256 - 194)).1 rest).2.2
                    + (decode (rest.drop (contLoop (initial_state (b % 256 - 194)).2
                      (initial_state (b % 256 - 194)).1 rest).2.2)).2 - 1
                    = ((contLoop (initial_state (b % 256 - 194)).2
                        (initial_state (b % 256 - 194)).1 rest).2.2
                       + ((decode (rest.drop (contLoop (initial_state (b % 256 - 194)).2
                          (initial_state (b % 256 - 194)).1 rest).2.2)).2 - 1)) + 1 := by
                  omega
                rw [h', List.take_succ_cons, List.take_add]
              rw [htk, decode_cons_go b _
                (contLoop (initial_state (b % 256 - 194)).2
                  (initial_state (b % 256 - 194)).1 rest).1
                (contLoop (initial_state (b % 256 - 194)).2
                  (initial_state (b % 256 - 194)).1 rest).2.1
                (contLoop (initial_state (b % 256 - 194)).2
                  (initial_state (b % 256 - 194)).1 rest).2.2 hb2 hext he]
              have hdrop : (rest.take (contLoop (initial_state (b % 256 - 194)).2
                    (initial_state (b % 256 - 194)).1 rest).2.2
                  ++ (rest.drop (contLoop (initial_state (b % 256 - 194)).2
                      (initial_state (b % 256 - 194)).1 rest).2.2).take
                      ((decode (rest.drop (contLoop (initial_state (b % 256 - 194)).2
                        (initial_state (b % 256 - 194)).1 rest).2.2)).2 - 1)).drop
                    (contLoop (initial_state (b % 256 - 194)).2
                      (initial_state (b % 256 - 194)).1 rest).2.2
                  = (rest.drop (contLoop (initial_state (b % 256 - 194)).2
                      (initial_state (b % 256 - 194)).1 rest).2.2).take
                      ((decode (rest.drop (contLoop (initial_state (b % 256 - 194)).2
                        (initial_state (b % 256 - 194)).1 rest).2.2)).2 - 1) := by
                apply List.drop_left'
                simp [List.length_take]
                omega
              rw [hdrop, h2]
              simp only [Prod.mk.injEq, true_and]
              omega

/-- C3: whenever `decode` stops early — the returned position `p` differs
from the input length — the offending octet is the one read immediately
before returning: `p ≥ 1`, and cutting the input just before that octet
(at `p - 1`) reproduces exactly the same output with position `p - 1`, so
the sink holds precisely the code points of the preceding complete
sequences, in encounter order, and nothing for the failed sequence.  The
decoder never raises: it is a total function whose only failure signal is
the returned position. -/
theorem decode_early_stop (input out : List Nat) (p : Nat)
    (hd : decode input = (out, p)) (hne : p ≠ input.length) :
    1 ≤ p ∧ decode (input.take (p - 1)) = (out, p - 1) :=
  decode_early_aux input.length input (Nat.le_refl _) out p hd hne

/-- Witness for C3 on `"A" 0xFF "B"`: decoding stops at position 2 just
past the invalid octet `0xFF`, with only the code point for `"A"` emitted,
and the input cut at position 1 decodes to the same output. -/
theorem decode_early_stop_w :
    1 ≤ 2 ∧ decode ([0x41, 0xFF, 0x42].take (2 - 1)) = ([0x41], 2 - 1) :=
  decode_early_stop [0x41, 0xFF, 0x42] [0x41] 2 (by decide) (by decide)

theorem cat_lt : ∀ b < 256, octet_category b < 12 := by decide

/-- Byte-range case split for the inner loop: the three continuation
ranges with their categories, or a category on which every pending state
transitions to `ERR`. -/
theorem cat_cases_cont : ∀ b < 256,
    (octet_category b = 2 ∧ 128 ≤ b ∧ b ≤ 143) ∨
    (octet_category b = 3 ∧ 144 ≤ b ∧ b ≤ 159) ∨
    (octet_category b = 4 ∧ 160 ≤ b ∧ b ≤ 191) ∨
    (octet_category b = 0 ∨ octet_category b = 1 ∨ 5 ≤ octet_category b) := by
  decide

/-- In every pending row of the transition table, the columns for classes
`ILL`, `ASC` and the leader classes all map to `ERR`. -/
theorem trans_err_cols : ∀ cat < 12, cat = 0 ∨ cat = 1 ∨ 5 ≤ cat →
    state_transition (24 + cat) = 12 ∧ state_transition (36 + cat) = 12 ∧
    state_transition (48 + cat) = 12 ∧ state_transition (60 + cat) = 12 ∧
    state_transition (72 + cat) = 12 ∧ state_transition (84 + cat) = 12 ∧
    state_transition (96 + cat) = 12 := by
  decide

theorem state_transition_table_len : state_transition_table.length = 108 := by decide

/-- Every value the transition lookup can produce, at any index: `END`,
`ERR`, or one of the pending states (out-of-range indices give the `getD`
default `ERR`, but `decode_accesses_ok` shows they never occur). -/
theorem trans_vals : ∀ j, state_transition j = 0 ∨ state_transition j = 12 ∨
    (12 < state_transition j ∧ stateOK (state_transition j) = true) := by
  intro j
  by_cases hj : j < 108
  · have h : ∀ i < 108, state_transition i = 0 ∨ state_transition i = 12 ∨
        (12 < state_transition i ∧ stateOK (state_transition i) = true) := by decide
    exact h j hj
  · right; left
    show state_transition_table.getD j ERR = 12
    rw [List.getD_eq_default]
    · rfl
    · rw [state_transition_table_len]; omega

/-- The inner loop, started in a pending state, exits either in the
accepting state or in `ERR`. -/
theorem contLoop_exit : ∀ (input : List Nat) (state cp : Nat), 12 < state →
    (contLoop state cp input).1 = 0 ∨ (contLoop state cp input).1 = 12 := by
  intro input
  induction input with
  | nil =>
    intro s cp h
    rw [contLoop_nil s cp h]
    right; rfl
  | cons b rs ih =>
    intro s cp h
    rw [contLoop_cons s cp b rs h]
    rcases trans_vals (s + octet_category (b % 256)) with h0 | h12 | ⟨hgt, _⟩
    · rw [h0, contLoop_low _ _ _ (by norm_num)]
      left; rfl
    · rw [h12, contLoop_low _ _ _ (by norm_num)]
      right; rfl
    · exact ih _ _ hgt

/-- One inner-loop step preserves the invariant: from an invariant state,
reading octet `b` either transitions to `ERR`, or completes the sequence
with a canonical code point, or moves to a pending state whose invariant
holds with one more octet consumed. -/
theorem inv_step (state cp u b : Nat) (hb : b < 256) (hInv : Inv state cp u) :
    (state_transition (state + octet_category b) = 0 →
      canonical (u + 1) (cp * 64 + b % 64)) ∧
    (12 < state_transition (state + octet_category b) →
      Inv (state_transition (state + octet_category b)) (cp * 64 + b % 64) (u + 1)) := by
  have hcl := cat_lt b hb
  rcases cat_cases_cont b hb with ⟨hcat, hb1, hb2⟩ | ⟨hcat, hb1, hb2⟩ | ⟨hcat, hb1, hb2⟩ | hoth
  · rcases hInv with ⟨hs, hu⟩|⟨hs, hu⟩|⟨hs, hu⟩|⟨hs, hu⟩|⟨hs, hu⟩|⟨hs, hu⟩|⟨hs, hu⟩ <;>
      subst hs <;> rw [hcat] <;>
      simp only [show state_transition (24 + 2) = 0 from by decide,
        show state_transition (36 + 2) = 24 from by decide,
        show state_transition (48 + 2) = 36 from by decide,
        show state_transition (60 + 2) = 12 from by decide,
        show state_transition (72 + 2) = 24 from by decide,
        show state_transition (84 + 2) = 12 from by decide,
        show state_transition (96 + 2) = 36 from by decide] <;>
      constructor <;> intro h <;>
      first
        | (exfalso; omega)
        | (rcases hu with ⟨hu1, hcp⟩ | ⟨hu1, hcp⟩ | ⟨hu1, hcp⟩ <;> subst hu1 <;>
            simp only [canonical, Inv, seqMin, seqMax] <;> norm_num <;> omega)
        | (rcases hu with ⟨hu1, hcp⟩ | ⟨hu1, hcp⟩ <;> subst hu1 <;>
            simp only [canonical, Inv, seqMin, seqMax] <;> norm_num <;> omega)
        | (obtain ⟨hu1, hcp⟩ := hu
           subst hu1
           simp only [canonical, Inv, seqMin, seqMax]
           norm_num
           omega)
  · rcases hInv with ⟨hs, hu⟩|⟨hs, hu⟩|⟨hs, hu⟩|⟨hs, hu⟩|⟨hs, hu⟩|⟨hs, hu⟩|⟨hs, hu⟩ <;>
      subst hs <;> rw [hcat] <;>
      simp only [show state_transition (24 + 3) = 0 from by decide,
        show state_transition (36 + 3) = 24 from by decide,
        show state_transition (48 + 3) = 36 from by decide,
        show state_transition (60 + 3) = 12 from by decide,
        show state_transition (72 + 3) = 24 from by decide,
        show state_transition (84 + 3) = 36 from by decide,
        show state_transition (96 + 3) = 12 from by decide] <;>
      constructor <;> intro h <;>
      first
        | (exfalso; omega)
        | (rcases hu with ⟨hu1, hcp⟩ | ⟨hu1, hcp⟩ | ⟨hu1, hcp⟩ <;> subst hu1 <;>
            simp only [canonical, Inv, seqMin, seqMax] <;> norm_num <;> omega)
        | (rcases hu with ⟨hu1, hcp⟩ | ⟨hu1, hcp⟩ <;> subst hu1 <;>
            simp only [canonical, Inv, seqMin, seqMax] <;> norm_num <;> omega)
        | (obtain ⟨hu1, hcp⟩ := hu
           subst hu1
           simp only [canonical, Inv, seqMin, seqMax]
           norm_num
           omega)
  · rcases hInv with ⟨hs, hu⟩|⟨hs, hu⟩|⟨hs, hu⟩|⟨hs, hu⟩|⟨hs, hu⟩|⟨hs, hu⟩|⟨hs, hu⟩ <;>
      subst hs <;> rw [hcat] <;>
      simp only [show state_transition (24 + 4) = 0 from by decide,
        show state_transition (36 + 4) = 24 from by decide,
        show state_transition (48 + 4) = 36 from by decide,
        show state_transition (60 + 4) = 24 from by decide,
        show state_transition (72 + 4) = 12 from by decide,
        show state_transition (84 + 4) = 36 from by decide,
        show state_transition (96 + 4) = 12 from by decide] <;>
      constructor <;> intro h <;>
      first
        | (exfalso; omega)
        | (rcases hu with ⟨hu1, hcp⟩ | ⟨hu1, hcp⟩ | ⟨hu1, hcp⟩ <;> subst hu1 <;>
            simp only [canonical, Inv, seqMin, seqMax] <;> norm_num <;> omega)
        | (rcases hu with ⟨hu1, hcp⟩ | ⟨hu1, hcp⟩ <;> subst hu1 <;>
            simp only [canonical, Inv, seqMin, seqMax] <;> norm_num <;> omega)
        | (obtain ⟨hu1, hcp⟩ := hu
           subst hu1
           simp only [canonical, Inv, seqMin, seqMax]
           norm_num
           omega)
  · obtain ⟨e24, e36, e48, e60, e72, e84, e96⟩ := trans_err_cols (octet_category b) hcl hoth
    rcases hInv with ⟨hs, hu⟩|⟨hs, hu⟩|⟨hs, hu⟩|⟨hs, hu⟩|⟨hs, hu⟩|⟨hs, hu⟩|⟨hs, hu⟩ <;>
      subst hs <;>
      simp only [e24, e36, e48, e60, e72, e84, e96] <;>
      exact ⟨fun h => absurd h (by norm_num), fun h => absurd h (by norm_num)⟩

theorem inv_state_gt (state cp u : Nat) (h : Inv state cp u) : 12 < state := by
  rcases h with ⟨h, _⟩|⟨h, _⟩|⟨h, _⟩|⟨h, _⟩|⟨h, _⟩|⟨h, _⟩|⟨h, _⟩ <;> omega

theorem inv_cp_lt (state cp u : Nat) (h : Inv state cp u) : cp < 67108864 := by
  rcases h with ⟨_, h⟩|⟨_, h⟩|⟨_, h⟩|⟨_, h⟩|⟨_, h⟩|⟨_, h⟩|⟨_, h⟩ <;> omega

/-- Running the inner loop from an invariant state to acceptance yields a
code point canonical for the total number of octets consumed. -/
theorem inv_run : ∀ (input : List Nat) (state cp u : Nat), Inv state cp u →
    (contLoop state cp input).1 = 0 →
    canonical (u + (contLoop state cp input).2.2) (contLoop state cp input).2.1 := by
  intro input
  induction input with
  | nil =>
    intro state cp u hInv h0
    rw [contLoop_nil state cp (inv_state_gt state cp u hInv)] at h0
    exact absurd h0 (by norm_num)
  | cons b rest ih =>
    intro state cp u hInv h0
    have hst := inv_state_gt state cp u hInv
    have hcp := inv_cp_lt state cp u hInv
    have hbm : b % 256 < 256 := Nat.mod_lt _ (by norm_num)
    rw [contLoop_cons state cp b rest hst] at h0 ⊢
    rw [cpStep_eq cp (b % 256) hcp hbm] at h0 ⊢
    obtain ⟨hstep0, hstepI⟩ := inv_step state cp u (b % 256) hbm hInv
    rcases trans_vals (state + octet_category (b % 256)) with hT | hT | ⟨hTgt, _⟩
    · rw [hT, contLoop_low _ _ rest (by norm_num)] at h0 ⊢
      have hcan := hstep0 hT
      have e : u + ((0, cp * 64 + b % 256 % 64, 0).2.2 + 1) = u + 1 := by norm_num
      rw [e]
      exact hcan
    · rw [hT, contLoop_low _ _ rest (by norm_num)] at h0
      exact absurd h0 (by norm_num)
    · have hnext := hstepI hTgt
      have hrec := ih _ _ _ hnext h0
      have e : u + ((contLoop (state_transition (state + octet_category (b % 256)))
            (cp * 64 + b % 256 % 64) rest).2.2 + 1)
          = u + 1 + (contLoop (state_transition (state + octet_category (b % 256)))
            (cp * 64 + b % 256 % 64) rest).2.2 := by omega
      rw [e]
      exact hrec

/-- Every entry of `initial_state` either starts in `ERR` or satisfies the
loop invariant with one octet (the leader) consumed. -/
theorem init_inv : ∀ i < 62,
    (initial_state i).2 = 12 ∨ Inv (initial_state i).2 (initial_state i).1 1 := by
  decide

theorem canonical_scalar (L c : Nat) (h : canonical L c) :
    c ≤ 1114111 ∧ ¬ (55296 ≤ c ∧ c ≤ 57343) := by
  obtain ⟨h1, h2, h3⟩ := h
  refine ⟨Nat.le_trans h2 ?_, h3⟩
  simp only [seqMax]
  split <;> norm_num
  split <;> norm_num
  split <;> norm_num

theorem decodeAux_scalar : ∀ fuel (l : List Nat), ∀ c ∈ (decodeAux fuel l).1,
    c ≤ 1114111 ∧ ¬ (55296 ≤ c ∧ c ≤ 57343) := by
  intro fuel
  induction fuel with
  | zero => intro l c hc; cases l <;> simp [decodeAux] at hc
  | succ f ih =>
    intro l c hc
    cases l with
    | nil => simp [decodeAux] at hc
    | cons b rest =>
      simp only [decodeAux] at hc
      by_cases hb : b % 256 < 128
      · rw [if_pos hb] at hc
        rcases List.mem_cons.mp (by simpa using hc) with h1 | h2
        · subst h1
          refine ⟨by omega, by omega⟩
        · exact ih rest c h2
      · rw [if_neg hb] at hc
        by_cases hb2 : b % 256 < 194
        · rw [if_pos hb2] at hc
          simp at hc
        · rw [if_neg hb2] at hc
          by_cases he : (contLoop (initial_state (b % 256 - 194)).2
              (initial_state (b % 256 - 194)).1 rest).1 = 12
          · rw [if_pos he] at hc
            simp at hc
          · rw [if_neg he] at hc
            rcases List.mem_cons.mp (by simpa using hc) with h1 | h2
            · subst h1
              have hmod : b % 256 < 256 := Nat.mod_lt _ (by norm_num)
              have hidx : b % 256 - 194 < 62 := by omega
              rcases init_inv _ hidx with h12 | hinv
              · exfalso
                apply he
                rw [h12, contLoop_low _ _ _ (by norm_num)]
              · have hst := inv_state_gt _ _ _ hinv
                rcases contLoop_exit rest (initial_state (b % 256 - 194)).2
                  (initial_state (b % 256 - 194)).1 hst with h0 | h12x
                · exact canonical_scalar _ _ (inv_run rest _ _ 1 hinv h0)
                · exact absurd h12x he
            · exact ih _ c h2

/-- C4: every code point `decode` pushes to the output sink is a Unicode
scalar value — at most `0x10FFFF` and not a surrogate — and a completed
multi-octet sequence always decodes to a code point in the canonical range
for its consumed length (so an overlong encoding can never complete); both
facts follow purely from the restricted leading-octet and continuation
classes baked into the tables, with no range check after decoding in the
embedding of the loop. -/
theorem decode_scalar_only :
    (∀ (input : List Nat), ∀ c ∈ (decode input).1,
        c ≤ 1114111 ∧ ¬ (55296 ≤ c ∧ c ≤ 57343)) ∧
    (∀ (leader : Nat) (rest : List Nat), 194 ≤ leader → leader < 256 →
        (contLoop (initial_state (leader - 194)).2
          (initial_state (leader - 194)).1 rest).1 = 0 →
        canonical
          (1 + (contLoop (initial_state (leader - 194)).2
            (initial_state (leader - 194)).1 rest).2.2)
          (contLoop (initial_state (leader - 194)).2
            (initial_state (leader - 194)).1 rest).2.1) := by
  constructor
  · intro input c hc
    exact decodeAux_scalar input.length input c hc
  · intro leader rest h1 h2 h0
    have hidx : leader - 194 < 62 := by omega
    rcases init_inv _ hidx with h12 | hinv
    · rw [h12, contLoop_low _ _ _ (by norm_num)] at h0
      exact absurd h0 (by norm_num)
    · have hrun := inv_run rest _ _ 1 hinv h0
      exact hrun

/-- Witness for C4: decoding `0xC3 0xA9` emits U+00E9, a scalar value, and
the completed two-octet run for leader `0xC3` is canonical. -/
theorem decode_scalar_only_w :
    (233 ≤ 1114111 ∧ ¬ (55296 ≤ 233 ∧ 233 ≤ 57343)) ∧
    canonical (1 + (contLoop (initial_state (195 - 194)).2
        (initial_state (195 - 194)).1 [169]).2.2)
      (contLoop (initial_state (195 - 194)).2
        (initial_state (195 - 194)).1 [169]).2.1 :=
  ⟨decode_scalar_only.1 [195, 169] 233 (by decide),
   decode_scalar_only.2 195 [169] (by decide) (by decide) (by decide)⟩

theorem stateOK_bounds : ∀ s, stateOK s = true → 12 < s ∧ s ≤ 96 := by
  intro s hs
  simp only [stateOK, Bool.or_eq_true, beq_iff_eq] at hs
  omega

theorem init_ok : ∀ i < 62,
    (initial_state i).2 = 12 ∨ stateOK (initial_state i).2 = true := by
  decide

theorem contLoopChecked_eq : ∀ (input : List Nat) (state cp : Nat),
    (12 < state → stateOK state = true) →
    contLoopChecked state cp input = some (contLoop state cp input) := by
  intro input
  induction input with
  | nil =>
    intro state cp h
    by_cases hs : 12 < state <;> simp [contLoopChecked, contLoop, hs]
  | cons b rest ih =>
    intro state cp h
    by_cases hs : 12 < state
    · have hok := h hs
      have hbounds := stateOK_bounds state hok
      have hbm : b % 256 < 256 := Nat.mod_lt _ (by norm_num)
      have hcat := cat_lt (b % 256) hbm
      simp only [contLoopChecked, contLoop, if_pos hs]
      rw [if_pos (show stateOK state = true ∧ b % 256 < 256
            ∧ octet_category (b % 256) < 12
            ∧ state + octet_category (b % 256) < 108 from
          ⟨hok, hbm, hcat, by omega⟩)]
      rw [ih (state_transition (state + octet_category (b % 256)))
          (cpStep cp (b % 256)) (fun hgt => by
            rcases trans_vals (state + octet_category (b % 256)) with h0 | h12 | ⟨_, hOK⟩
            · omega
            · omega
            · exact hOK)]
    · simp [contLoopChecked, contLoop, hs]

theorem decodeCheckedAux_eq : ∀ fuel (l : List Nat),
    decodeCheckedAux fuel l = some (decodeAux fuel l) := by
  intro fuel
  induction fuel with
  | zero => intro l; cases l <;> rfl
  | succ f ih =>
    intro l
    cases l with
    | nil => rfl
    | cons b rest =>
      simp only [decodeCheckedAux, decodeAux]
      by_cases hb : b % 256 < 128
      · simp only [if_pos hb, ih rest]
      · simp only [if_neg hb]
        by_cases hb2 : b % 256 < 194
        · simp only [if_pos hb2]
        · simp only [if_neg hb2]
          have hbm : b % 256 < 256 := Nat.mod_lt _ (by norm_num)
          rw [if_pos (show b % 256 - 194 < 62 by omega)]
          rw [contLoopChecked_eq rest _ _ (fun hgt => by
            rcases init_ok (b % 256 - 194) (by omega) with h12 | hOK
            · omega
            · exact hOK)]
          by_cases he : (contLoop (initial_state (b % 256 - 194)).2
              (initial_state (b % 256 - 194)).1 rest).1 = 12
          · simp only [if_pos he]
          · simp only [if_neg he, ih]

/-- C8: every lookup-table access `decode` performs is within bounds.
`decodeChecked` mirrors `decode` but guards each access: `initial_state`
(size 62) is only indexed after checking `octet - 0xC2 < 62`,
`octet_category` (size 256) only with an octet below 256, and
`state_transition` (size 108) only when the current state is one of the
seven pending states `{24, 36, 48, 60, 72, 84, 96}` and the flattened
index `state + category` is below 108, returning `none` on any violation.
It returns `some` of `decode`'s result on every input, so no access is
ever out of bounds. -/
theorem decode_accesses_ok : ∀ input, decodeChecked input = some (decode input) := by
  intro input
  exact decodeCheckedAux_eq input.length input

end Utf8
